import Mathlib

/-!
Verification development for the pinmux-table analysis tool
(`pinmux_analysis.py`).  The classification engine (`parse_table`) and the
report renderer's port-statement generation (`print_group`) are shallowly
embedded below.  Compiled regular expressions are modelled abstractly as a
full-match predicate together with a substitution function (the engine only
ever calls `.fullmatch` and `.sub`); worksheet cells are modelled as optional
text plus a strike-through flag, and Python's `str(...)` coercion of an
absent value to the literal text `"None"` is modelled by `pyStr`.
-/

set_option autoImplicit false

namespace Pinmux

/-- Python `str(x)` applied to an optional cell value: `None` stringifies to
the literal text `"None"`; a string stringifies to itself. -/
def pyStr : Option String → String
  | none => "None"
  | some s => s

/-- Python `s.upper()` restricted to the modelled character set. -/
def strUpper (s : String) : String :=
  String.mk (s.data.map Char.toUpper)

/-- Python `s.strip()`: remove leading and trailing whitespace. -/
def pyStrip (s : String) : String :=
  String.mk (((s.data.dropWhile Char.isWhitespace).reverse.dropWhile Char.isWhitespace).reverse)

/-- Cleaning applied to header cells: `str(v).replace('\n', ' ').strip()`. -/
def cleanStr (s : String) : String :=
  pyStrip (String.mk (s.data.map (fun c => if c = '\n' then ' ' else c)))

/-- Python `s.ljust(w)`: right-pad with spaces up to width `w` (no effect when
the string is already at least `w` long). -/
def ljust (s : String) (w : Nat) : String :=
  s ++ String.mk (List.replicate (w - s.length) ' ')

/-- Test whether an `Except` computation succeeded. -/
def exceptOk {α : Type} : Except String α → Bool
  | .ok _ => true
  | .error _ => false

/-- Abstract model of a compiled regular expression (`re.Pattern`): the engine
only uses `.fullmatch` (a predicate on strings) and `.sub` (template
substitution, used to render a sub-group name from the matched text). -/
structure RePat where
  fullmatch : String → Bool
  subst : String → String → String

/-- Semantics of a literal (metacharacter-free) regular expression: it
fullmatches exactly its own text, and substituting a template into a
fullmatching input yields the template. -/
def litPat (lit : String) : RePat :=
  { fullmatch := fun s => s = lit
    subst := fun template input => if input = lit then template else input }

/-! Worksheet model: the collaborator exposes cell values, per-row hidden
flags and per-cell strike-through state (`openpyxl` worksheet). -/

/-- One worksheet cell: its (optional) text value and strike-through flag. -/
structure Cell where
  value : Option String
  strike : Bool

/-- One worksheet row: its hidden flag and its cells (column 1 first). -/
structure RowData where
  hidden : Bool
  cells : List Cell

/-- A worksheet: its rows (row 1 first); `max_row` is the number of rows. -/
structure Sheet where
  rows : List RowData

/-- Cell access `ws.cell(ridx, cidx)` with 1-based column index; absent cells
read as an empty, un-struck cell (as `openpyxl` materialises them). -/
def cellAt (row : RowData) (cidx : Nat) : Cell :=
  row.cells.getD (cidx - 1) { value := none, strike := false }

/-- Row access `ws[rid]` with 1-based row index. -/
def rowCells (ws : Sheet) (rid : Nat) : List Cell :=
  (ws.rows.getD (rid - 1) { hidden := false, cells := [] }).cells

/-! Configuration model: the validated configuration object, with every
textual pattern already compiled (`re.compile`) into a `RePat`. -/

/-- One entry of a group's `subgroup` list: a pattern and a name template. -/
structure SubGroupCfg where
  pattern : RePat
  name : String

/-- One group of the `function` section: ordered subgroup pattern/template
pairs, ordered clock patterns, and named custom-pin patterns. -/
structure GroupCfg where
  subgroup : List SubGroupCfg
  clock : List RePat
  custom : List (String × RePat)

/-- The `table_format` section (worksheet selection by `active_ws` is the
workbook collaborator's job and happens before `parse_table` sees cells). -/
structure TableFormatCfg where
  funcRid : Nat
  funcPatterns : List RePat
  padRid : Nat
  padPattern : RePat
  refRid : Nat
  refPattern : RePat

/-- The validated configuration consumed by `parse_table`.  `function` and
`ignore` are JSON objects, hence ordered association lists with unique keys.
The `partition` section is validated but never consumed by the engine, so it
does not appear here. -/
structure Config where
  hideRowParse : Bool
  tableFormat : TableFormatCfg
  function : List (String × GroupCfg)
  ignore : List (String × RePat)

/-! Data structures built by the scan (`Pin`, `SubGroup`, `GroupData`). -/

/-- A scanned pin: function name, direction (uppercased), and the raw pad and
reference cell values (which are *not* passed through `str(...)` by the code,
hence may be absent). -/
structure Pin where
  func : String
  dir : String
  pad : Option String
  ref : Option String
deriving DecidableEq

/-- A sub-group accumulator: full pin list plus data/clock views. -/
structure SubGroup where
  pin_list : List Pin
  data_pin : List Pin
  clk_pin : List Pin
deriving DecidableEq

/-- The empty `SubGroup()` created by `setdefault`. -/
def SubGroup.empty : SubGroup :=
  { pin_list := [], data_pin := [], clk_pin := [] }

/-- One group's compiled data and its discovered sub-groups (`sub_group` is a
`dict`, i.e. an insertion-ordered association list). -/
structure GroupData where
  repat : List RePat
  sub_name : List String
  clk_repat : List RePat
  cus_pin : List (String × RePat)
  sub_group : List (String × SubGroup)

/-- One ignore rule: its fired flag and compiled pattern. -/
structure IgnoreRule where
  active : Bool
  repat : RePat

/-- The scan state / result: the group dictionary, the unknown list, the
ignore dictionary, and the lines the scan prints to standard output while
running (the stray `print('check')` for skipped hidden rows). -/
structure ParseResult where
  groups : List (String × GroupData)
  unknown : List Pin
  ignore : List (String × IgnoreRule)
  out : List String

/-- Direction tags counting as input-capable (`DIR_I_TAG`). -/
def DIR_I_TAG : List String := ["I", "IO"]

/-- Direction tags counting as output-capable (`DIR_O_TAG`). -/
def DIR_O_TAG : List String := ["O", "IO"]

/-- All valid direction tags (`DIR_TAG`). -/
def DIR_TAG : List String := ["I", "IO", "O"]

/-- Clock membership: the loop over `gdata.clk_repat` with `break`, i.e. does
any clock pattern fullmatch the function name. -/
def matchClk (clks : List RePat) (func : String) : Bool :=
  clks.any (fun c => c.fullmatch func)

/-- Append a pin to a sub-group: into `clk_pin` or `data_pin` according to
`is_clk`, and always into `pin_list`. -/
def appendPin (sg : SubGroup) (isClk : Bool) (pin : Pin) : SubGroup :=
  { pin_list := sg.pin_list ++ [pin]
    data_pin := if isClk then sg.data_pin else sg.data_pin ++ [pin]
    clk_pin := if isClk then sg.clk_pin ++ [pin] else sg.clk_pin }

/-- The `sub_group.setdefault(sgname, SubGroup())` followed by in-place
appends: get-or-create the entry for `k` and modify it with `f`. -/
def updateSG (sgs : List (String × SubGroup)) (k : String) (f : SubGroup → SubGroup) :
    List (String × SubGroup) :=
  match sgs with
  | [] => [(k, f SubGroup.empty)]
  | e :: rest => if e.1 = k then (e.1, f e.2) :: rest else e :: updateSG rest k f

/-- The inner loop `for pid, repat in enumerate(gdata.repat)` of the
classification step for one group: every matching pattern (no `break`)
appends the pin to the sub-group named by substituting that pattern's name
template; the returned flag says whether any pattern matched. -/
def subPass (clks : List RePat) (pats : List (RePat × String))
    (sgs : List (String × SubGroup)) (pin : Pin) : List (String × SubGroup) × Bool :=
  match pats with
  | [] => (sgs, false)
  | pr :: rest =>
    if pr.1.fullmatch pin.func then
      let isClk := matchClk clks pin.func
      let sgname := pr.1.subst pr.2 pin.func
      let next := subPass clks rest (updateSG sgs sgname (fun sg => appendPin sg isClk pin)) pin
      (next.1, true)
    else
      subPass clks rest sgs pin

/-- The outer loop `for gname, gdata in group_dict.items()`: every group runs
its own `subPass`; the flag is the disjunction of the per-group flags
(`is_unknown` is cleared by any match anywhere and never reset). -/
def groupsProcessPin (groups : List (String × GroupData)) (pin : Pin) :
    List (String × GroupData) × Bool :=
  match groups with
  | [] => ([], false)
  | g :: rest =>
    let r1 := subPass g.2.clk_repat (g.2.repat.zip g.2.sub_name) g.2.sub_group pin
    let r2 := groupsProcessPin rest pin
    ((g.1, { g.2 with sub_group := r1.1 }) :: r2.1, r1.2 || r2.2)

/-- Classification of one constructed pin: run every group, then append the
pin to the unknown list exactly when no pattern of any group matched. -/
def classifyStep (groups : List (String × GroupData)) (unknown : List Pin) (pin : Pin) :
    List (String × GroupData) × List Pin :=
  let r := groupsProcessPin groups pin
  (r.1, if r.2 then unknown else unknown ++ [pin])

/-- The ignore check: test the function name against every ignore rule in
configuration order; on the first full match set that rule's fired flag and
stop.  Returns the updated dictionary and whether a rule matched. -/
def checkIgnore (rules : List (String × IgnoreRule)) (func : String) :
    List (String × IgnoreRule) × Bool :=
  match rules with
  | [] => ([], false)
  | e :: rest =>
    if e.2.repat.fullmatch func then
      ((e.1, { e.2 with active := true }) :: rest, true)
    else
      let r := checkIgnore rest func
      (e :: r.1, r.2)

/-- Fold one classified pin into the scan state. -/
def scanPinUpdate (st : ParseResult) (pin : Pin) : ParseResult :=
  let r := classifyStep st.groups st.unknown pin
  { st with groups := r.1, unknown := r.2 }

/-- Processing of one `(dir_cidx, func_cidx)` pair at one row: strike check,
ignore check, direction validity check, then pin construction and
classification.  Accessing a cell with an unresolved (`None`) column index
raises, modelled as an `Except.error`. -/
def processPair (padc refc : Option Nat) (row : RowData) (st : ParseResult)
    (pr : Nat × Nat) : Except String ParseResult :=
  if (cellAt row pr.1).strike then .ok st
  else
    let func_name := pyStr (cellAt row pr.2).value
    let ig := checkIgnore st.ignore func_name
    let st1 := { st with ignore := ig.1 }
    if ig.2 then .ok st1
    else
      match (cellAt row pr.1).value with
      | none => .ok st1
      | some d =>
        if strUpper d ∈ DIR_TAG then
          match padc with
          | none => .error ("TypeError: ws.cell column is None")
          | some pc =>
            match refc with
            | none => .error ("TypeError: ws.cell column is None")
            | some rc =>
              .ok (scanPinUpdate st1
                { func := func_name
                  dir := strUpper d
                  pad := (cellAt row pc).value
                  ref := (cellAt row rc).value })
        else .ok st1

/-- The loop over `func_cidx_list` for one row. -/
def processRowPairs (padc refc : Option Nat) (row : RowData)
    (pairs : List (Nat × Nat)) (st : ParseResult) : Except String ParseResult :=
  match pairs with
  | [] => .ok st
  | pr :: rest =>
    match processPair padc refc row st pr with
    | .error e => .error e
    | .ok st1 => processRowPairs padc refc row rest st1

/-- The loop `for ridx in range(1, ws.max_row+1)`: a hidden row with hidden
parsing disabled prints the literal text `check` to standard output and is
skipped; every other row runs the pair loop. -/
def processRows (hideRowParse : Bool) (padc refc : Option Nat)
    (pairs : List (Nat × Nat)) (rows : List RowData) (st : ParseResult) :
    Except String ParseResult :=
  match rows with
  | [] => .ok st
  | row :: rest =>
    if row.hidden && !hideRowParse then
      processRows hideRowParse padc refc pairs rest { st with out := st.out ++ ["check"] }
    else
      match processRowPairs padc refc row pairs st with
      | .error e => .error e
      | .ok st1 => processRows hideRowParse padc refc pairs rest st1

/-- Function-column discovery: collect every 1-based column index of the
configured header row whose stringified cell value fullmatches some function
header pattern. -/
def findFuncColsAux (pats : List RePat) (cells : List Cell) (i : Nat) : List Nat :=
  match cells with
  | [] => []
  | c :: rest =>
    (if pats.any (fun p => p.fullmatch (pyStr c.value)) then [i] else [])
      ++ findFuncColsAux pats rest (i + 1)

/-- Pad/reference-column discovery: the first 1-based column index of the
configured header row whose cleaned cell value fullmatches the pattern;
`none` when no header cell matches. -/
def findFirstCol (pat : RePat) (cells : List Cell) (i : Nat) : Option Nat :=
  match cells with
  | [] => none
  | c :: rest =>
    if pat.fullmatch (cleanStr (pyStr c.value)) then some i
    else findFirstCol pat rest (i + 1)

/-- The classification engine `parse_table` (with `is_debug = False`, the
default: the debug prints are disabled; the stray un-gated `print('check')`
for skipped hidden rows is recorded in the `out` field). -/
def parse_table (config : Config) (ws : Sheet) : Except String ParseResult :=
  let pairs := (findFuncColsAux config.tableFormat.funcPatterns
                  (rowCells ws config.tableFormat.funcRid) 1).map (fun x => (x - 1, x))
  let pad_cidx := findFirstCol config.tableFormat.padPattern
                    (rowCells ws config.tableFormat.padRid) 1
  let ref_cidx := findFirstCol config.tableFormat.refPattern
                    (rowCells ws config.tableFormat.refRid) 1
  let ignoreD := config.ignore.map (fun e => (e.1, ({ active := false, repat := e.2 } : IgnoreRule)))
  let groups := config.function.map (fun e =>
    (e.1, ({ repat := e.2.subgroup.map (fun s => s.pattern)
             sub_name := e.2.subgroup.map (fun s => s.name)
             clk_repat := e.2.clock
             cus_pin := e.2.custom
             sub_group := [] } : GroupData)))
  processRows config.hideRowParse pad_cidx ref_cidx pairs ws.rows
    { groups := groups, unknown := [], ignore := ignoreD, out := [] }

/-! Report renderer (`print_group`): the pin listing helper `_print_pin` and
the per-sub-group port-statement generation.  Python raises a `TypeError`
when `len` or `str.join` meets an absent (`None`) value; this is modelled
with `Except`. -/

/-- Python `len(x)` on a value that must be text: raises on `None`. -/
def pyLen : Option String → Except String Nat
  | none => .error ("TypeError: object of type NoneType has no len")
  | some s => .ok s.length

/-- Python `x.ljust(w)` on a value that must be text: raises on `None`. -/
def pyLjust (x : Option String) (w : Nat) : Except String String :=
  match x with
  | none => .error ("AttributeError: NoneType object has no attribute ljust")
  | some s => .ok (ljust s w)

/-- The first loop of `_print_pin`: running maxima of the function, pad and
reference text lengths over the pin list. -/
def maxLens (pins : List Pin) (fl pl rl : Nat) : Except String (Nat × Nat × Nat) :=
  match pins with
  | [] => .ok (fl, pl, rl)
  | p :: rest =>
    match pyLen p.pad with
    | .error e => .error e
    | .ok lp =>
      match pyLen p.ref with
      | .error e => .error e
      | .ok lr => maxLens rest (max fl p.func.length) (max pl lp) (max rl lr)

/-- One rendered line of `_print_pin` for one pin. -/
def pinLine (cpin_set : Option (List String)) (tabspace fl pl rl : Nat) (p : Pin) :
    Except String String :=
  let ptype := match cpin_set with
    | none => ""
    | some s => if p.func ∈ s then "[C] " else "[D] "
  match pyLjust p.pad pl with
  | .error e => .error e
  | .ok pad =>
    match pyLjust p.ref rl with
    | .error e => .error e
    | .ok ref =>
      .ok (String.mk (List.replicate tabspace ' ') ++ ptype ++ ljust p.func fl
            ++ " " ++ ljust p.dir 2 ++ " " ++ pad ++ " (" ++ ref ++ ")")

/-- The `_print_pin` helper: compute column widths over the whole list, then
render one aligned line per pin. -/
def print_pin_lines (pins : List Pin) (cpin_set : Option (List String)) (tabspace : Nat) :
    Except String (List String) :=
  match maxLens pins 0 0 0 with
  | .error e => .error e
  | .ok w => pins.mapM (pinLine cpin_set tabspace w.1 w.2.1 w.2.2)

/-- The custom-pin check loop with `break`: the first custom label (in
configured order) whose pattern fullmatches the function name. -/
def customMatch (cus : List (String × RePat)) (func : String) : Option String :=
  match cus with
  | [] => none
  | e :: rest => if e.2.fullmatch func then some e.1 else customMatch rest func

/-- The `defaultdict(list)` append `cus_pin_dict[cus_name].append(pin.pad)`:
get-or-create the bucket for `k` (first-use order) and append `v`. -/
def dictListAppend (d : List (String × List (Option String))) (k : String)
    (v : Option String) : List (String × List (Option String)) :=
  match d with
  | [] => [(k, [v])]
  | e :: rest => if e.1 = k then (e.1, e.2 ++ [v]) :: rest else e :: dictListAppend rest k v

/-- One pass of the port-bucketing loop (run once over `clk_pin`, once over
`data_pin`): a pin matching a custom pattern goes into the custom dictionary
(threaded through `acc`) under its first matching label; otherwise its pad is
appended to the input list when input-capable and to the output list when
output-capable. -/
def bucketPins (cus : List (String × RePat)) (pins : List Pin)
    (acc : List (String × List (Option String))) :
    List (String × List (Option String)) × List (Option String) × List (Option String) :=
  match pins with
  | [] => (acc, [], [])
  | p :: rest =>
    match customMatch cus p.func with
    | some name => bucketPins cus rest (dictListAppend acc name p.pad)
    | none =>
      let r := bucketPins cus rest acc
      (r.1,
       (if p.dir ∈ DIR_I_TAG then [p.pad] else []) ++ r.2.1,
       (if p.dir ∈ DIR_O_TAG then [p.pad] else []) ++ r.2.2)

/-- Sequence a list of optional values: `none` when any element is absent. -/
def seqOpt : List (Option String) → Option (List String)
  | [] => some []
  | none :: _ => none
  | some s :: rest => (seqOpt rest).map (fun ss => s :: ss)

/-- Python `','.join(xs)` on a list that must hold text: raises on `None`. -/
def pyJoin (l : List (Option String)) : Except String String :=
  match seqOpt l with
  | none => .error ("TypeError: sequence item expected str instance, NoneType found")
  | some ss => .ok (String.intercalate "," ss)

/-- One rendered `set <ident> [get_ports {<pads>}]` command line. -/
def fmtSet (ident : String) (joined : String) : String :=
  "    set " ++ ident ++ " [get_ports \x7b" ++ joined ++ "\x7d]"

/-- The `if len(list): print(...)` pattern for one directional port list:
no statement for an empty list, one statement otherwise. -/
def stmtIfNonEmpty (ident : String) (varLen : Nat) (l : List (Option String)) :
    Except String (List String) :=
  if l.isEmpty then .ok []
  else
    match pyJoin l with
    | .error e => .error e
    | .ok j => .ok [fmtSet (ljust ident varLen) j]

/-- The four generic port statements of one sub-group, in source order
(`_PADCLK_I`, `_PADCLK_O`, `_PORT_I`, `_PORT_O`), each identifier padded to
`len(sgname) + 9`. -/
def dirStmts (sgname : String) (ci co di doL : List (Option String)) :
    Except String (List String) :=
  match stmtIfNonEmpty (sgname ++ "_PADCLK_I") (sgname.length + 9) ci with
  | .error e => .error e
  | .ok a =>
    match stmtIfNonEmpty (sgname ++ "_PADCLK_O") (sgname.length + 9) co with
    | .error e => .error e
    | .ok b =>
      match stmtIfNonEmpty (sgname ++ "_PORT_I") (sgname.length + 9) di with
      | .error e => .error e
      | .ok c =>
        match stmtIfNonEmpty (sgname ++ "_PORT_O") (sgname.length + 9) doL with
        | .error e => .error e
        | .ok d => .ok (a ++ b ++ c ++ d)

/-- The `var_len` recomputation for the custom block: the longest custom
*label* length over the bucket dictionary. -/
def maxKeyLen (d : List (String × List (Option String))) : Nat :=
  d.foldl (fun acc kv => max acc kv.1.length) 0

/-- The loop over the custom buckets: one statement per bucket, in first-use
order, the identifier `sgname + '_' + label` passed through `ljust(varLen)`. -/
def customStmtsLoop (sgname : String) (varLen : Nat) :
    List (String × List (Option String)) → Except String (List String)
  | [] => .ok []
  | kv :: rest =>
    match pyJoin kv.2 with
    | .error e => .error e
    | .ok j =>
      match customStmtsLoop sgname varLen rest with
      | .error e => .error e
      | .ok out => .ok (fmtSet (ljust (sgname ++ "_" ++ kv.1) varLen) j :: out)

/-- The custom-pin statements of one sub-group: nothing when the bucket
dictionary is empty, otherwise one statement per bucket with the padding
width recomputed as the longest custom *label* length plus one. -/
def customStmts (sgname : String) (d : List (String × List (Option String))) :
    Except String (List String) :=
  if d.isEmpty then .ok []
  else customStmtsLoop sgname (maxKeyLen d + 1) d

/-- The whole tool-command block of one sub-group: bucket the clock pins,
then the data pins (threading the custom dictionary), then emit the four
generic statements followed by the custom statements. -/
def subgroupCmds (gdata : GroupData) (sgname : String) (sg : SubGroup) :
    Except String (List String) :=
  let r1 := bucketPins gdata.cus_pin sg.clk_pin []
  let r2 := bucketPins gdata.cus_pin sg.data_pin r1.1
  match dirStmts sgname r1.2.1 r1.2.2 r2.2.1 r2.2.2 with
  | .error e => .error e
  | .ok a =>
    match customStmts sgname r2.1 with
    | .error e => .error e
    | .ok b => .ok (a ++ b)

/-! Accessors and counting helpers used to state the claims. -/

/-- Association-list lookup with the key compared by equality (dict access). -/
def lookupA {α : Type} (k : String) : List (String × α) → Option α
  | [] => none
  | e :: rest => if e.1 = k then some e.2 else lookupA k rest

/-- The payload of a successful run (an empty result for a failed one). -/
def resultOr (e : Except String ParseResult) : ParseResult :=
  match e with
  | .ok r => r
  | .error _ => { groups := [], unknown := [], ignore := [], out := [] }

/-- The group data recorded under a group name by a run. -/
def groupOf (e : Except String ParseResult) (g : String) : GroupData :=
  (lookupA g (resultOr e).groups).getD
    { repat := [], sub_name := [], clk_repat := [], cus_pin := [], sub_group := [] }

/-- The sub-group recorded under a group and sub-group name by a run. -/
def subGroupOf (e : Except String ParseResult) (g sgn : String) : SubGroup :=
  (lookupA sgn (groupOf e g).sub_group).getD SubGroup.empty

/-- The pin list of one sub-group of a run. -/
def sgPinList (e : Except String ParseResult) (g sgn : String) : List Pin :=
  (subGroupOf e g sgn).pin_list

/-- The unknown list of a run. -/
def unknownOf (e : Except String ParseResult) : List Pin :=
  (resultOr e).unknown

/-- The standard-output lines the scan itself printed during a run. -/
def outOf (e : Except String ParseResult) : List String :=
  (resultOr e).out

/-- The pads bucketed under one custom label. -/
def getPads (d : List (String × List (Option String))) (k : String) : List (Option String) :=
  (lookupA k d).getD []

/-- Occurrences of one pin value in a pin list. -/
def countPin (l : List Pin) (p : Pin) : Nat :=
  l.countP (fun q => q = p)

/-- Occurrences of one pin value across all sub-group pin lists of a group. -/
def sgCount (sgs : List (String × SubGroup)) (p : Pin) : Nat :=
  (sgs.map (fun s => countPin s.2.pin_list p)).sum

/-- Occurrences of one pin value across all sub-groups of all groups. -/
def totalSubCount (groups : List (String × GroupData)) (p : Pin) : Nat :=
  (groups.map (fun g => sgCount g.2.sub_group p)).sum

/-- Number of sub-group patterns of one group that fullmatch a function
name (each such pattern records the pin once). -/
def groupMatches (gd : GroupData) (func : String) : Nat :=
  (gd.repat.zip gd.sub_name).countP (fun pr => pr.1.fullmatch func)

/-- Number of matching (group, sub-pattern) pairs across all groups. -/
def totalMatches (groups : List (String × GroupData)) (func : String) : Nat :=
  (groups.map (fun g => groupMatches g.2 func)).sum

/-! Counting lemmas: how many times one classification step appends a pin. -/

/-- Appending a pin at the end adds one occurrence of it. -/
theorem countPin_append_self (l : List Pin) (p : Pin) :
    countPin (l ++ [p]) p = countPin l p + 1 := by
  simp [countPin, List.countP_append, List.countP_cons]

/-- The get-or-create update of a sub-group dictionary adds exactly one
occurrence of the appended pin across the dictionary. -/
theorem sgCount_updateSG (sgs : List (String × SubGroup)) (k : String) (b : Bool) (pin : Pin) :
    sgCount (updateSG sgs k (fun sg => appendPin sg b pin)) pin = sgCount sgs pin + 1 := by
  induction sgs with
  | nil =>
    simp [updateSG, sgCount, appendPin, SubGroup.empty, countPin, List.countP_cons]
  | cons e rest ih =>
    by_cases h : e.1 = k
    · simp [updateSG, h, sgCount, appendPin, countPin_append_self]
      omega
    · simp [updateSG, h, sgCount] at ih ⊢
      omega

/-- One group's pattern loop appends the pin once per fullmatching pattern. -/
theorem subPass_count (clks : List RePat) (pats : List (RePat × String))
    (sgs : List (String × SubGroup)) (pin : Pin) :
    sgCount (subPass clks pats sgs pin).1 pin
      = sgCount sgs pin + pats.countP (fun pr => pr.1.fullmatch pin.func) := by
  induction pats generalizing sgs with
  | nil => simp [subPass]
  | cons pr rest ih =>
    by_cases h : pr.1.fullmatch pin.func
    · simp [subPass, h, ih, sgCount_updateSG, List.countP_cons]
      omega
    · simp [subPass, h, ih, List.countP_cons]

/-- One group's pattern loop reports a match exactly when some pattern
fullmatches. -/
theorem subPass_flag (clks : List RePat) (pats : List (RePat × String))
    (sgs : List (String × SubGroup)) (pin : Pin) :
    (subPass clks pats sgs pin).2 = pats.any (fun pr => pr.1.fullmatch pin.func) := by
  induction pats generalizing sgs with
  | nil => simp [subPass]
  | cons pr rest ih =>
    by_cases h : pr.1.fullmatch pin.func
    · simp [subPass, h]
    · simp [subPass, h, ih]

/-- The whole group loop appends the pin once per matching (group, pattern)
pair. -/
theorem groupsProcessPin_count (groups : List (String × GroupData)) (pin : Pin) :
    totalSubCount (groupsProcessPin groups pin).1 pin
      = totalSubCount groups pin + totalMatches groups pin.func := by
  induction groups with
  | nil => simp [groupsProcessPin, totalSubCount, totalMatches]
  | cons g rest ih =>
    simp [groupsProcessPin, totalSubCount, totalMatches, subPass_count, groupMatches] at ih ⊢
    omega

/-- The group loop's match flag is set exactly when some (group, pattern)
pair fullmatches the function name. -/
theorem groupsProcessPin_flag (groups : List (String × GroupData)) (pin : Pin) :
    (groupsProcessPin groups pin).2 = true ↔ 0 < totalMatches groups pin.func := by
  induction groups with
  | nil => simp [groupsProcessPin, totalMatches]
  | cons g rest ih =>
    simp only [groupsProcessPin, Bool.or_eq_true, totalMatches, List.map_cons,
      List.sum_cons] at ih ⊢
    rw [subPass_flag, List.any_eq_true]
    constructor
    · intro h
      rcases h with h | h
      · rcases h with ⟨a, ha, hm⟩
        have : 0 < groupMatches g.2 pin.func := by
          rw [groupMatches, List.countP_pos_iff]
          exact ⟨a, ha, hm⟩
        omega
      · have := ih.mp h
        simp only [totalMatches] at this
        omega
    · intro h
      by_cases hg : 0 < groupMatches g.2 pin.func
      · left
        rw [groupMatches, List.countP_pos_iff] at hg
        exact hg
      · right
        apply ih.mpr
        omega

/-! Fixtures: small concrete configurations and worksheets. -/

/-- Shorthand for an un-struck cell holding optional text. -/
def mkCell (v : Option String) : Cell :=
  { value := v, strike := false }

/-- Header row used by several fixtures: direction column 1, function
column 2, pad column 3, reference column 4. -/
def hdrRow : RowData :=
  { hidden := false
    cells := [mkCell (some "D"), mkCell (some "FUNC"), mkCell (some "PAD"), mkCell (some "REF")] }

/-- Table format locating the function header by the literal pattern
`FUNC` on row 1, the pad header by `PAD` and the reference header by `REF`. -/
def stdFmt : TableFormatCfg :=
  { funcRid := 1, funcPatterns := [litPat ("FUNC")]
    padRid := 1, padPattern := litPat ("PAD")
    refRid := 1, refPattern := litPat ("REF") }

/-- Fixture for claim C1: one group `g` whose subgroup list holds two
patterns that both fullmatch the function name `F`, naming sub-groups `A`
and `B`. -/
def c1cfg : Config :=
  { hideRowParse := true
    tableFormat := stdFmt
    function := [("g", { subgroup := [{ pattern := litPat ("F"), name := "A" },
                                      { pattern := litPat ("F"), name := "B" }]
                         clock := []
                         custom := [] })]
    ignore := [] }

/-- Worksheet for claim C1: the header row and one pin row `I / F / P3 / R4`. -/
def c1ws : Sheet :=
  { rows := [hdrRow,
             { hidden := false
               cells := [mkCell (some "I"), mkCell (some "F"),
                         mkCell (some "P3"), mkCell (some "R4")] }] }

/-- Claim C1 counterexample: with two sub-patterns of the same group both
fullmatching the function name `F`, the scanned pin is appended to the pin
lists of *both* sub-groups `A` and `B` — classification does not stop at the
first matching (group, pattern) pair, so the pin is not appended exactly
once to exactly one sub-group. -/
theorem c1_counterexample :
    sgPinList (parse_table c1cfg c1ws) "g" "A"
        = [{ func := "F", dir := "I", pad := some "P3", ref := some "R4" }]
      ∧ sgPinList (parse_table c1cfg c1ws) "g" "B"
        = [{ func := "F", dir := "I", pad := some "P3", ref := some "R4" }] := by
  constructor
  · decide
  · decide

/-- Claim C1 (amended): classification does not short-circuit: for every
scanned pin, every fullmatching (group, sub-pattern) pair records the pin,
so the pin is appended once per matching pair across the group dictionary
(rather than exactly once overall), and the match flag that guards the
unknown fallback is set exactly when at least one pair matches. -/
theorem c1_theorem (groups : List (String × GroupData)) (pin : Pin) :
    totalSubCount (groupsProcessPin groups pin).1 pin
        = totalSubCount groups pin + totalMatches groups pin.func
      ∧ ((groupsProcessPin groups pin).2 = true ↔ 0 < totalMatches groups pin.func) :=
  ⟨groupsProcessPin_count groups pin, groupsProcessPin_flag groups pin⟩

/-- Fixture for claim C2: one group `G2` with two sub-patterns both
fullmatching the function name `Q`, naming sub-groups `S1` and `S2`. -/
def c2cfg : Config :=
  { hideRowParse := true
    tableFormat := stdFmt
    function := [("G2", { subgroup := [{ pattern := litPat ("Q"), name := "S1" },
                                       { pattern := litPat ("Q"), name := "S2" }]
                          clock := []
                          custom := [] })]
    ignore := [] }

/-- Worksheet for claim C2: the header row and one pin row `IO / Q / PB7 / RB8`. -/
def c2ws : Sheet :=
  { rows := [hdrRow,
             { hidden := false
               cells := [mkCell (some "IO"), mkCell (some "Q"),
                         mkCell (some "PB7"), mkCell (some "RB8")] }] }

/-- Claim C2 counterexample: a pin whose function name fullmatches two
sub-patterns of the *same* group is appended to two sub-groups of that one
group, refuting "a pin may appear in (at most) one sub-group per matching
group". -/
theorem c2_counterexample :
    sgPinList (parse_table c2cfg c2ws) "G2" "S1"
        = [{ func := "Q", dir := "IO", pad := some "PB7", ref := some "RB8" }]
      ∧ sgPinList (parse_table c2cfg c2ws) "G2" "S2"
        = [{ func := "Q", dir := "IO", pad := some "PB7", ref := some "RB8" }] := by
  constructor
  · decide
  · decide

/-- Claim C2 (amended): partition property of one classification step: the
pin is appended once per matching (group, sub-pattern) pair — hence at least
once somewhere, since when no pair matches it goes to the unknown list — and
it is appended to the unknown list exactly when no pair matches, so it never
lands in both a sub-group pin list and the unknown list. -/
theorem c2_theorem (groups : List (String × GroupData)) (unknown : List Pin) (pin : Pin) :
    totalSubCount (classifyStep groups unknown pin).1 pin
        = totalSubCount groups pin + totalMatches groups pin.func
      ∧ (classifyStep groups unknown pin).2
        = (if 0 < totalMatches groups pin.func then unknown else unknown ++ [pin]) := by
  constructor
  · exact groupsProcessPin_count groups pin
  · show (if (groupsProcessPin groups pin).2 then unknown else unknown ++ [pin]) = _
    by_cases h : (groupsProcessPin groups pin).2 = true
    · rw [h]
      simp [(groupsProcessPin_flag groups pin).mp h]
    · have hb : (groupsProcessPin groups pin).2 = false := by
        cases hx : (groupsProcessPin groups pin).2
        · rfl
        · exact absurd hx h
      have : ¬ 0 < totalMatches groups pin.func := by
        intro hc
        exact h ((groupsProcessPin_flag groups pin).mpr hc)
      rw [hb]
      simp [this]

/-! Invariant: inside every sub-group the clock and data views are governed
by the group's clock patterns, and together they are exactly the pin list. -/

/-- Sub-group invariant with respect to a group's clock patterns: every pin
of the clock view fullmatches some clock pattern, every pin of the data view
matches none, and the pin list holds exactly the pins of the two views. -/
def SGInv (clks : List RePat) (sg : SubGroup) : Prop :=
  (∀ p ∈ sg.clk_pin, matchClk clks p.func = true)
  ∧ (∀ p ∈ sg.data_pin, matchClk clks p.func = false)
  ∧ (∀ p : Pin, p ∈ sg.pin_list ↔ (p ∈ sg.clk_pin ∨ p ∈ sg.data_pin))

/-- Sub-group invariant over a whole sub-group dictionary. -/
def SGSInv (clks : List RePat) (sgs : List (String × SubGroup)) : Prop :=
  ∀ e ∈ sgs, SGInv clks e.2

/-- Sub-group invariant over the whole group dictionary, each group with its
own clock patterns. -/
def GroupsInv (groups : List (String × GroupData)) : Prop :=
  ∀ g ∈ groups, SGSInv g.2.clk_repat g.2.sub_group

/-- The empty sub-group satisfies the invariant. -/
theorem SGInv_empty (clks : List RePat) : SGInv clks SubGroup.empty := by
  refine ⟨?_, ?_, ?_⟩ <;> simp [SubGroup.empty]

/-- Appending a pin with the clock flag computed from the clock patterns
preserves the invariant. -/
theorem SGInv_append (clks : List RePat) (sg : SubGroup) (pin : Pin)
    (h : SGInv clks sg) : SGInv clks (appendPin sg (matchClk clks pin.func) pin) := by
  obtain ⟨hc, hd, hi⟩ := h
  cases hb : matchClk clks pin.func with
  | true =>
    refine ⟨?_, ?_, ?_⟩
    · intro p hp
      simp [appendPin, hb] at hp
      rcases hp with hp | hp
      · exact hc p hp
      · rw [hp, hb]
    · intro p hp
      simp [appendPin, hb] at hp
      exact hd p hp
    · intro p
      simp [appendPin, hb, List.mem_append, hi p]
      tauto
  | false =>
    refine ⟨?_, ?_, ?_⟩
    · intro p hp
      simp [appendPin, hb] at hp
      exact hc p hp
    · intro p hp
      simp [appendPin, hb] at hp
      rcases hp with hp | hp
      · exact hd p hp
      · rw [hp, hb]
    · intro p
      simp [appendPin, hb, List.mem_append, hi p]
      tauto

/-- The get-or-create update with such an append preserves the dictionary
invariant. -/
theorem SGSInv_updateSG (clks : List RePat) (sgs : List (String × SubGroup))
    (k : String) (pin : Pin) (h : SGSInv clks sgs) :
    SGSInv clks (updateSG sgs k (fun sg => appendPin sg (matchClk clks pin.func) pin)) := by
  induction sgs with
  | nil =>
    intro e he
    simp [updateSG] at he
    rw [he]
    exact SGInv_append clks SubGroup.empty pin (SGInv_empty clks)
  | cons hd tl ih =>
    intro e he
    by_cases hk : hd.1 = k
    · simp [updateSG, hk] at he
      rcases he with he | he
      · rw [he]
        exact SGInv_append clks hd.2 pin (h hd (List.mem_cons_self hd tl))
      · exact h e (List.mem_cons_of_mem hd he)
    · simp only [updateSG, hk, if_false] at he
      rcases List.mem_cons.mp he with he | he
      · rw [he]
        exact h hd (List.mem_cons_self hd tl)
      · exact ih (fun x hx => h x (List.mem_cons_of_mem hd hx)) e he

/-- The pattern loop of one group preserves the dictionary invariant. -/
theorem SGSInv_subPass (clks : List RePat) (pats : List (RePat × String))
    (sgs : List (String × SubGroup)) (pin : Pin) (h : SGSInv clks sgs) :
    SGSInv clks (subPass clks pats sgs pin).1 := by
  induction pats generalizing sgs with
  | nil => exact h
  | cons pr rest ih =>
    by_cases hm : pr.1.fullmatch pin.func
    · simp only [subPass, hm, if_true]
      exact ih _ (SGSInv_updateSG clks sgs _ pin h)
    · simp only [subPass, hm, if_false]
      exact ih sgs h

/-- The group loop preserves the invariant of the whole group dictionary. -/
theorem GroupsInv_process (groups : List (String × GroupData)) (pin : Pin)
    (h : GroupsInv groups) : GroupsInv (groupsProcessPin groups pin).1 := by
  induction groups with
  | nil => intro g hg; simp [groupsProcessPin] at hg
  | cons hd tl ih =>
    intro g hg
    simp only [groupsProcessPin] at hg
    rcases List.mem_cons.mp hg with hg | hg
    · rw [hg]
      exact SGSInv_subPass hd.2.clk_repat _ hd.2.sub_group pin
        (h hd (List.mem_cons_self hd tl))
    · exact ih (fun x hx => h x (List.mem_cons_of_mem hd hx)) g hg

/-- Processing one (direction, function) column pair either leaves the group
dictionary unchanged or passes it through one classification step. -/
theorem processPair_groups (padc refc : Option Nat) (row : RowData)
    (st : ParseResult) (pr : Nat × Nat) (st' : ParseResult)
    (h : processPair padc refc row st pr = .ok st') :
    st'.groups = st.groups ∨ ∃ pin, st'.groups = (groupsProcessPin st.groups pin).1 := by
  by_cases h1 : (cellAt row pr.1).strike
  · simp only [processPair, h1, if_true, Except.ok.injEq] at h
    rw [← h]
    exact Or.inl rfl
  · by_cases h2 : (checkIgnore st.ignore (pyStr (cellAt row pr.2).value)).2 = true
    · simp only [processPair, h1, Bool.false_eq_true, if_false, h2, if_true,
        Except.ok.injEq] at h
      rw [← h]
      exact Or.inl rfl
    · cases h3 : (cellAt row pr.1).value with
      | none =>
        simp only [processPair, h1, Bool.false_eq_true, if_false, h2, h3,
          Except.ok.injEq] at h
        rw [← h]
        exact Or.inl rfl
      | some d =>
        by_cases h4 : strUpper d ∈ DIR_TAG
        · cases padc with
          | none =>
            simp only [processPair, h1, Bool.false_eq_true, if_false, h2, h3, h4,
              if_true] at h
            cases h
          | some pc =>
            cases refc with
            | none =>
              simp only [processPair, h1, Bool.false_eq_true, if_false, h2, h3, h4,
                if_true] at h
              cases h
            | some rc =>
              simp only [processPair, h1, Bool.false_eq_true, if_false, h2, h3, h4,
                if_true, Except.ok.injEq] at h
              rw [← h]
              exact Or.inr ⟨_, rfl⟩
        · simp only [processPair, h1, Bool.false_eq_true, if_false, h2, h3, h4,
            Except.ok.injEq] at h
          rw [← h]
          exact Or.inl rfl

/-- Processing one column pair preserves the group-dictionary invariant. -/
theorem GroupsInv_processPair (padc refc : Option Nat) (row : RowData)
    (st : ParseResult) (pr : Nat × Nat) (st' : ParseResult)
    (h : processPair padc refc row st pr = .ok st') (hi : GroupsInv st.groups) :
    GroupsInv st'.groups := by
  rcases processPair_groups padc refc row st pr st' h with hg | ⟨pin, hg⟩
  · rw [hg]; exact hi
  · rw [hg]; exact GroupsInv_process st.groups pin hi

/-- The pair loop of one row preserves the group-dictionary invariant. -/
theorem GroupsInv_processRowPairs (padc refc : Option Nat) (row : RowData)
    (pairs : List (Nat × Nat)) (st : ParseResult) (st' : ParseResult)
    (h : processRowPairs padc refc row pairs st = .ok st') (hi : GroupsInv st.groups) :
    GroupsInv st'.groups := by
  induction pairs generalizing st with
  | nil =>
    simp only [processRowPairs] at h
    cases h
    exact hi
  | cons pr rest ih =>
    simp only [processRowPairs] at h
    split at h
    · cases h
    · rename_i st1 hst1
      exact ih st1 h (GroupsInv_processPair padc refc row st pr st1 hst1 hi)

/-- The row loop preserves the group-dictionary invariant. -/
theorem GroupsInv_processRows (hrp : Bool) (padc refc : Option Nat)
    (pairs : List (Nat × Nat)) (rows : List RowData) (st st' : ParseResult)
    (h : processRows hrp padc refc pairs rows st = .ok st') (hi : GroupsInv st.groups) :
    GroupsInv st'.groups := by
  induction rows generalizing st with
  | nil =>
    simp only [processRows] at h
    cases h
    exact hi
  | cons row rest ih =>
    simp only [processRows] at h
    split at h
    · exact ih _ h hi
    · split at h
      · cases h
      · rename_i st1 hst1
        exact ih st1 h (GroupsInv_processRowPairs padc refc row pairs st st1 hst1 hi)

/-- A successful run of the classification engine satisfies the sub-group
invariant everywhere. -/
theorem parse_table_inv (cfg : Config) (ws : Sheet) (r : ParseResult)
    (h : parse_table cfg ws = .ok r) : GroupsInv r.groups := by
  unfold parse_table at h
  refine GroupsInv_processRows _ _ _ _ _ _ _ h ?_
  intro g hg
  rcases List.mem_map.mp hg with ⟨e, _, he⟩
  intro x hx
  rw [← he] at hx
  simp at hx

/-- The group dictionary read back from any run (successful or not)
satisfies the invariant. -/
theorem resultOr_inv (cfg : Config) (ws : Sheet) :
    GroupsInv (resultOr (parse_table cfg ws)).groups := by
  cases h : parse_table cfg ws with
  | ok r =>
    have := parse_table_inv cfg ws r h
    simpa [resultOr] using this
  | error e =>
    intro g hg
    simp [resultOr] at hg

/-- Association-list lookup finds a recorded entry. -/
theorem lookupA_mem {α : Type} (k : String) (l : List (String × α)) (v : α)
    (h : lookupA k l = some v) : (k, v) ∈ l := by
  induction l with
  | nil => simp [lookupA] at h
  | cons e rest ih =>
    by_cases hk : e.1 = k
    · simp only [lookupA, hk, if_true, Option.some.injEq] at h
      refine List.mem_cons.mpr (Or.inl ?_)
      rw [← hk, ← h]
    · simp only [lookupA, hk, if_false] at h
      exact List.mem_cons_of_mem e (ih h)

/-- Claim C3: in every sub-group produced by a classification run the clock
and data pin lists are disjoint, their union is exactly the sub-group's pin
list, and a recorded pin sits in the clock list precisely when some clock
pattern of its group fullmatches its function name. -/
theorem c3_theorem (cfg : Config) (ws : Sheet) (g sgn : String) (p : Pin) :
    (¬ (p ∈ (subGroupOf (parse_table cfg ws) g sgn).clk_pin
        ∧ p ∈ (subGroupOf (parse_table cfg ws) g sgn).data_pin))
    ∧ (p ∈ (subGroupOf (parse_table cfg ws) g sgn).pin_list
        ↔ (p ∈ (subGroupOf (parse_table cfg ws) g sgn).clk_pin
            ∨ p ∈ (subGroupOf (parse_table cfg ws) g sgn).data_pin))
    ∧ (p ∈ (subGroupOf (parse_table cfg ws) g sgn).pin_list
        → (p ∈ (subGroupOf (parse_table cfg ws) g sgn).clk_pin
            ↔ matchClk (groupOf (parse_table cfg ws) g).clk_repat p.func = true)) := by
  have hg := resultOr_inv cfg ws
  have hsg : SGInv (groupOf (parse_table cfg ws) g).clk_repat
      (subGroupOf (parse_table cfg ws) g sgn) := by
    unfold subGroupOf
    cases hlg : lookupA g (resultOr (parse_table cfg ws)).groups with
    | none =>
      simp only [groupOf, hlg, Option.getD_none, lookupA, Option.getD_none]
      exact SGInv_empty _
    | some gd =>
      have hmem := lookupA_mem g _ gd hlg
      have hinv := hg (g, gd) hmem
      cases hls : lookupA sgn (groupOf (parse_table cfg ws) g).sub_group with
      | none =>
        simp only [hls, Option.getD_none]
        exact SGInv_empty _
      | some sg =>
        have hgd : groupOf (parse_table cfg ws) g = gd := by
          simp [groupOf, hlg]
        rw [hgd] at hls ⊢
        simp only [hls, Option.getD_some]
        exact hinv (sgn, sg) (lookupA_mem sgn _ sg hls)
  obtain ⟨hc, hd, hi⟩ := hsg
  refine ⟨?_, hi p, ?_⟩
  · rintro ⟨h1, h2⟩
    have := hc p h1
    have := hd p h2
    simp_all
  · intro hp
    constructor
    · intro hck
      exact hc p hck
    · intro hm
      rcases (hi p).mp hp with hck | hdt
      · exact hck
      · rw [hd p hdt] at hm
        cases hm

/-- Fixture for the claim C3 witness: one group `g` with a clock pattern
that fullmatches the single scanned pin `CLK`. -/
def c3cfg : Config :=
  { hideRowParse := true
    tableFormat := stdFmt
    function := [("g", { subgroup := [{ pattern := litPat ("CLK"), name := "S" }]
                         clock := [litPat ("CLK")]
                         custom := [] })]
    ignore := [] }

/-- Worksheet for the claim C3 witness: the header row and one pin row
`I / CLK / P1 / R1`. -/
def c3ws : Sheet :=
  { rows := [hdrRow,
             { hidden := false
               cells := [mkCell (some "I"), mkCell (some "CLK"),
                         mkCell (some "P1"), mkCell (some "R1")] }] }

/-- The pin scanned by the claim C3 witness fixture. -/
def c3pin : Pin :=
  { func := "CLK", dir := "I", pad := some "P1", ref := some "R1" }

/-- Claim C3 witness: at the concrete run of `c3cfg` over `c3ws`, the
theorem's membership hypothesis is discharged by evaluation and the scanned
clock pin is indeed in the clock view (its function name fullmatches the
group's clock pattern). -/
theorem c3_witness :
    c3pin ∈ (subGroupOf (parse_table c3cfg c3ws) "g" "S").clk_pin
      ↔ matchClk (groupOf (parse_table c3cfg c3ws) "g").clk_repat c3pin.func = true :=
  (c3_theorem c3cfg c3ws "g" "S" c3pin).2.2 (by decide)

/-! Claim C4: behaviour of the renderer on absent pad/reference values. -/

/-- The width computation of `_print_pin` raises as soon as some pin's pad or
reference value is absent (`len(None)` is a `TypeError`). -/
theorem maxLens_error (pins : List Pin) (fl pl rl : Nat)
    (h : ∃ p ∈ pins, p.pad = none ∨ p.ref = none) :
    exceptOk (maxLens pins fl pl rl) = false := by
  induction pins generalizing fl pl rl with
  | nil => simp at h
  | cons p rest ih =>
    rcases h with ⟨q, hq, hqn⟩
    rcases List.mem_cons.mp hq with hq | hq
    · rw [hq] at hqn
      rcases hqn with hn | hn
      · simp [maxLens, hn, pyLen, exceptOk]
      · cases hp : p.pad with
        | none => simp [maxLens, hp, pyLen, exceptOk]
        | some s => simp [maxLens, hp, hn, pyLen, exceptOk]
    · cases hp : p.pad with
      | none => simp [maxLens, hp, pyLen, exceptOk]
      | some s =>
        cases hr : p.ref with
        | none => simp [maxLens, hp, hr, pyLen, exceptOk]
        | some t =>
          simp only [maxLens, hp, hr, pyLen]
          exact ih _ _ _ ⟨q, hq, hqn⟩

/-- Fixture for claim C4: no groups, so the scanned pin lands in the
unknown list. -/
def c4cfg : Config :=
  { hideRowParse := true
    tableFormat := stdFmt
    function := []
    ignore := [] }

/-- Worksheet for claim C4: the header row and a pin row whose pad and
reference cells are absent (the row stops after the function column). -/
def c4ws : Sheet :=
  { rows := [hdrRow,
             { hidden := false
               cells := [mkCell (some "I"), mkCell (some "F")] }] }

/-- Claim C4 counterexample: a run over a table whose pin row has absent
pad and reference cells *does* abort during rendering: the scan records the
pin with absent pad/reference text, and the pin-listing renderer fails with
a type error instead of producing a report. -/
theorem c4_counterexample :
    unknownOf (parse_table c4cfg c4ws)
        = [{ func := "F", dir := "I", pad := none, ref := none }]
      ∧ exceptOk (print_pin_lines (unknownOf (parse_table c4cfg c4ws)) none 4) = false := by
  constructor
  · decide
  · decide

/-- Claim C4 (amended): a pin list containing a pin whose pad or reference
value is absent makes the pin-listing renderer `_print_pin` fail with a type
error while computing alignment widths; the absent value does not propagate
as empty text and no listing is produced. -/
theorem c4_theorem (pins : List Pin) (cpin_set : Option (List String)) (tabspace : Nat)
    (h : ∃ p ∈ pins, p.pad = none ∨ p.ref = none) :
    exceptOk (print_pin_lines pins cpin_set tabspace) = false := by
  unfold print_pin_lines
  cases hm : maxLens pins 0 0 0 with
  | error e => simp [exceptOk]
  | ok w =>
    have := maxLens_error pins 0 0 0 h
    rw [hm] at this
    simp [exceptOk] at this

/-- Claim C4 witness: the amended theorem applied at a concrete pin list
whose single pin has an absent reference value. -/
theorem c4_witness :
    exceptOk (print_pin_lines [{ func := "G", dir := "O", pad := some "PX", ref := none }]
      (some ["G"]) 2) = false :=
  c4_theorem [{ func := "G", dir := "O", pad := some "PX", ref := none }]
    (some ["G"]) 2 (by decide)

/-! Claim C5: behaviour when no header cell matches the pad/reference
pattern. -/

/-- Fixture for claim C5: the pad-name pattern fullmatches no header cell. -/
def c5cfg : Config :=
  { hideRowParse := true
    tableFormat :=
      { funcRid := 1, funcPatterns := [litPat ("FUNC")]
        padRid := 1, padPattern := litPat ("NOPE")
        refRid := 1, refPattern := litPat ("REF") }
    function := []
    ignore := [] }

/-- Worksheet for claim C5: only the header row, so no pin is ever
constructed and the unresolved pad column is never used. -/
def c5ws : Sheet :=
  { rows := [hdrRow] }

/-- Claim C5 counterexample: with no header cell fullmatching the pad-name
pattern the pad column rests unresolved, yet the run completes successfully
(no configuration error is raised) because no row ever constructs a pin —
the failure is not reported before or at the point of first use when there
is no use. -/
theorem c5_counterexample :
    findFirstCol c5cfg.tableFormat.padPattern (rowCells c5ws c5cfg.tableFormat.padRid) 1
        = none
      ∧ exceptOk (parse_table c5cfg c5ws) = true := by
  constructor
  · decide
  · decide

/-- Claim C5 (amended): an unresolved pad-name or reference-name column
makes the scan fail exactly at its first use: processing a column pair whose
direction is valid and whose function name is not ignored raises a type
error during pin construction; a run that never reaches such a pair
completes normally. -/
theorem c5_theorem (padc refc : Option Nat) (row : RowData) (st : ParseResult)
    (pr : Nat × Nat) (d : String)
    (h1 : (cellAt row pr.1).strike = false)
    (h2 : (checkIgnore st.ignore (pyStr (cellAt row pr.2).value)).2 = false)
    (h3 : (cellAt row pr.1).value = some d)
    (h4 : strUpper d ∈ DIR_TAG)
    (h5 : padc = none ∨ refc = none) :
    exceptOk (processPair padc refc row st pr) = false := by
  rcases h5 with h5 | h5
  · rw [h5]
    simp [processPair, h1, h2, h3, h4, exceptOk]
  · rw [h5]
    cases padc with
    | none => simp [processPair, h1, h2, h3, h4, exceptOk]
    | some pc => simp [processPair, h1, h2, h3, h4, exceptOk]

/-- The data row used by the claim C5 witness. -/
def c5row : RowData :=
  { hidden := false
    cells := [mkCell (some "I"), mkCell (some "F"),
              mkCell (some "P1"), mkCell (some "R1")] }

/-- The scan state used by the claim C5 witness (fresh state, no groups, no
ignore rules). -/
def c5st : ParseResult :=
  { groups := [], unknown := [], ignore := [], out := [] }

/-- Claim C5 witness: the amended theorem applied at a concrete row and
state with an unresolved pad column. -/
theorem c5_witness : exceptOk (processPair none (some 4) c5row c5st (1, 2)) = false :=
  c5_theorem none (some 4) c5row c5st (1, 2) "I"
    (by decide) (by decide) (by decide) (by decide) (Or.inl rfl)

/-! Claim C6: output written for skipped hidden rows. -/

/-- Fixture for claim C6: hidden-row parsing disabled, no groups. -/
def c6cfg : Config :=
  { hideRowParse := false
    tableFormat := stdFmt
    function := []
    ignore := [] }

/-- Worksheet for claim C6: the header row followed by a *hidden* pin row
whose content would otherwise be scanned into the unknown list. -/
def c6ws : Sheet :=
  { rows := [hdrRow,
             { hidden := true
               cells := [mkCell (some "I"), mkCell (some "F"),
                         mkCell (some "P1"), mkCell (some "R1")] }] }

/-- Claim C6: a hidden row with hidden-row parsing disabled is skipped by
the scan (its pin is not recorded anywhere), but the scan still writes the
stray line `check` to standard output for it — the skipped row therefore
*does* contribute output, contradicting the claim that the rendered report
is the only text written. -/
theorem c6_theorem :
    outOf (parse_table c6cfg c6ws) = ["check"]
      ∧ unknownOf (parse_table c6cfg c6ws) = [] := by
  constructor
  · decide
  · decide

/-! Lemmas about the port-bucketing loop of the renderer. -/

/-- Membership in the input-capable pad list produced by one bucketing pass:
exactly the pads of the non-custom, input-capable pins of the pass. -/
theorem mem_bucketPins_i (cus : List (String × RePat)) (pins : List Pin)
    (acc : List (String × List (Option String))) (x : Option String) :
    x ∈ (bucketPins cus pins acc).2.1
      ↔ ∃ r ∈ pins, customMatch cus r.func = none ∧ r.dir ∈ DIR_I_TAG ∧ r.pad = x := by
  induction pins generalizing acc with
  | nil => simp [bucketPins]
  | cons p rest ih =>
    cases hc : customMatch cus p.func with
    | some name =>
      simp only [bucketPins, hc]
      rw [ih]
      constructor
      · rintro ⟨r, hr, h⟩
        exact ⟨r, List.mem_cons_of_mem p hr, h⟩
      · rintro ⟨r, hr, hnone, hrest⟩
        rcases List.mem_cons.mp hr with he | he
        · rw [he] at hnone
          rw [hnone] at hc
          cases hc
        · exact ⟨r, he, hnone, hrest⟩
    | none =>
      by_cases hd : p.dir ∈ DIR_I_TAG
      · simp only [bucketPins, hc, hd, if_true, List.cons_append, List.nil_append]
        constructor
        · intro h
          rcases List.mem_cons.mp h with h | h
          · exact ⟨p, List.mem_cons_self p rest, hc, hd, h.symm⟩
          · rcases (ih _).mp h with ⟨r, hr, hh⟩
            exact ⟨r, List.mem_cons_of_mem p hr, hh⟩
        · rintro ⟨r, hr, hnone, hdr, hpx⟩
          rcases List.mem_cons.mp hr with he | he
          · rw [he] at hpx
            exact List.mem_cons.mpr (Or.inl hpx.symm)
          · exact List.mem_cons.mpr (Or.inr ((ih _).mpr ⟨r, he, hnone, hdr, hpx⟩))
      · simp only [bucketPins, hc, hd, if_false, List.nil_append]
        rw [ih]
        constructor
        · rintro ⟨r, hr, h⟩
          exact ⟨r, List.mem_cons_of_mem p hr, h⟩
        · rintro ⟨r, hr, hnone, hdr, hpx⟩
          rcases List.mem_cons.mp hr with he | he
          · rw [he] at hdr
            exact absurd hdr hd
          · exact ⟨r, he, hnone, hdr, hpx⟩

/-- Membership in the output-capable pad list produced by one bucketing
pass: exactly the pads of the non-custom, output-capable pins of the pass. -/
theorem mem_bucketPins_o (cus : List (String × RePat)) (pins : List Pin)
    (acc : List (String × List (Option String))) (x : Option String) :
    x ∈ (bucketPins cus pins acc).2.2
      ↔ ∃ r ∈ pins, customMatch cus r.func = none ∧ r.dir ∈ DIR_O_TAG ∧ r.pad = x := by
  induction pins generalizing acc with
  | nil => simp [bucketPins]
  | cons p rest ih =>
    cases hc : customMatch cus p.func with
    | some name =>
      simp only [bucketPins, hc]
      rw [ih]
      constructor
      · rintro ⟨r, hr, h⟩
        exact ⟨r, List.mem_cons_of_mem p hr, h⟩
      · rintro ⟨r, hr, hnone, hrest⟩
        rcases List.mem_cons.mp hr with he | he
        · rw [he] at hnone
          rw [hnone] at hc
          cases hc
        · exact ⟨r, he, hnone, hrest⟩
    | none =>
      by_cases hd : p.dir ∈ DIR_O_TAG
      · simp only [bucketPins, hc, hd, if_true, List.cons_append, List.nil_append]
        constructor
        · intro h
          rcases List.mem_cons.mp h with h | h
          · exact ⟨p, List.mem_cons_self p rest, hc, hd, h.symm⟩
          · rcases (ih _).mp h with ⟨r, hr, hh⟩
            exact ⟨r, List.mem_cons_of_mem p hr, hh⟩
        · rintro ⟨r, hr, hnone, hdr, hpx⟩
          rcases List.mem_cons.mp hr with he | he
          · rw [he] at hpx
            exact List.mem_cons.mpr (Or.inl hpx.symm)
          · exact List.mem_cons.mpr (Or.inr ((ih _).mpr ⟨r, he, hnone, hdr, hpx⟩))
      · simp only [bucketPins, hc, hd, if_false, List.nil_append]
        rw [ih]
        constructor
        · rintro ⟨r, hr, h⟩
          exact ⟨r, List.mem_cons_of_mem p hr, h⟩
        · rintro ⟨r, hr, hnone, hdr, hpx⟩
          rcases List.mem_cons.mp hr with he | he
          · rw [he] at hdr
            exact absurd hdr hd
          · exact ⟨r, he, hnone, hdr, hpx⟩

/-- The appended value lands in its own bucket. -/
theorem getPads_dictListAppend_self (d : List (String × List (Option String)))
    (k : String) (v : Option String) : v ∈ getPads (dictListAppend d k v) k := by
  induction d with
  | nil => simp [dictListAppend, getPads, lookupA]
  | cons e rest ih =>
    by_cases hk : e.1 = k
    · simp [dictListAppend, hk, getPads, lookupA]
    · simp only [dictListAppend, hk, if_false]
      simpa [getPads, lookupA, hk] using ih

/-- Appending to some bucket preserves membership in every bucket. -/
theorem getPads_dictListAppend_mono (d : List (String × List (Option String)))
    (k k2 : String) (v x : Option String) (h : x ∈ getPads d k) :
    x ∈ getPads (dictListAppend d k2 v) k := by
  induction d with
  | nil => simp [getPads, lookupA] at h
  | cons e rest ih =>
    by_cases h2 : e.1 = k2
    · by_cases hk : e.1 = k
      · have hkk : k2 = k := h2.symm.trans hk
        simp only [getPads, lookupA, hk, if_true, Option.getD_some] at h
        simp [dictListAppend, h2, getPads, lookupA, hkk, List.mem_append, h]
      · have hkk : ¬ k2 = k := fun hh => hk (h2.trans hh)
        simp only [getPads, lookupA, hk, if_false] at h
        simpa [dictListAppend, h2, getPads, lookupA, hkk] using h
    · by_cases hk : e.1 = k
      · simp only [getPads, lookupA, hk, if_true, Option.getD_some] at h
        have hkk : ¬ k = k2 := fun hh => h2 (hk.trans hh)
        simp [dictListAppend, h2, getPads, lookupA, hk, hkk, h]
      · simp only [getPads, lookupA, hk, if_false] at h
        simpa [dictListAppend, h2, getPads, lookupA, hk] using ih h

/-- The bucketing pass preserves membership in every existing bucket. -/
theorem getPads_bucketPins_mono (cus : List (String × RePat)) (pins : List Pin)
    (acc : List (String × List (Option String))) (k : String) (x : Option String)
    (h : x ∈ getPads acc k) : x ∈ getPads (bucketPins cus pins acc).1 k := by
  induction pins generalizing acc with
  | nil => simpa [bucketPins] using h
  | cons p rest ih =>
    cases hc : customMatch cus p.func with
    | some name =>
      simp only [bucketPins, hc]
      exact ih _ (getPads_dictListAppend_mono acc k name p.pad x h)
    | none =>
      simp only [bucketPins, hc]
      exact ih acc h

/-- A pin of the pass whose function name matches a custom pattern has its
pad recorded in the bucket of its first matching label. -/
theorem mem_getPads_bucketPins (cus : List (String × RePat)) (pins : List Pin)
    (acc : List (String × List (Option String))) (q : Pin) (lbl : String)
    (hq : q ∈ pins) (hc : customMatch cus q.func = some lbl) :
    q.pad ∈ getPads (bucketPins cus pins acc).1 lbl := by
  induction pins generalizing acc with
  | nil => simp at hq
  | cons p rest ih =>
    rcases List.mem_cons.mp hq with he | he
    · rw [← he]
      simp only [bucketPins, hc]
      exact getPads_bucketPins_mono cus rest _ lbl q.pad
        (getPads_dictListAppend_self acc lbl q.pad)
    · cases hcp : customMatch cus p.func with
      | some name =>
        simp only [bucketPins, hcp]
        exact ih _ he
      | none =>
        simp only [bucketPins, hcp]
        exact ih acc he

/-- Claim C7: a pin of a sub-group whose function name fullmatches one of
the group's custom-pin patterns is bucketed under its first matching custom
label, and (as long as no other pin of the sub-group carries the same pad)
its pad appears in none of the four generic port lists that feed the
`_PADCLK_I` / `_PADCLK_O` / `_PORT_I` / `_PORT_O` statements. -/
theorem c7_theorem (gdata : GroupData) (sg : SubGroup) (q : Pin) (lbl : String)
    (hq : q ∈ sg.clk_pin ∨ q ∈ sg.data_pin)
    (hc : customMatch gdata.cus_pin q.func = some lbl)
    (huc : ∀ r ∈ sg.clk_pin, r.pad = q.pad → r = q)
    (hud : ∀ r ∈ sg.data_pin, r.pad = q.pad → r = q) :
    q.pad ∈ getPads (bucketPins gdata.cus_pin sg.data_pin
        (bucketPins gdata.cus_pin sg.clk_pin []).1).1 lbl
      ∧ q.pad ∉ (bucketPins gdata.cus_pin sg.clk_pin []).2.1
      ∧ q.pad ∉ (bucketPins gdata.cus_pin sg.clk_pin []).2.2
      ∧ q.pad ∉ (bucketPins gdata.cus_pin sg.data_pin
          (bucketPins gdata.cus_pin sg.clk_pin []).1).2.1
      ∧ q.pad ∉ (bucketPins gdata.cus_pin sg.data_pin
          (bucketPins gdata.cus_pin sg.clk_pin []).1).2.2 := by
  refine ⟨?_, ?_, ?_, ?_, ?_⟩
  · rcases hq with hq | hq
    · exact getPads_bucketPins_mono gdata.cus_pin sg.data_pin _ lbl q.pad
        (mem_getPads_bucketPins gdata.cus_pin sg.clk_pin [] q lbl hq hc)
    · exact mem_getPads_bucketPins gdata.cus_pin sg.data_pin _ q lbl hq hc
  · intro hmem
    rcases (mem_bucketPins_i _ _ _ _).mp hmem with ⟨r, hr, hnone, _, hpx⟩
    rw [huc r hr hpx] at hnone
    rw [hnone] at hc
    cases hc
  · intro hmem
    rcases (mem_bucketPins_o _ _ _ _).mp hmem with ⟨r, hr, hnone, _, hpx⟩
    rw [huc r hr hpx] at hnone
    rw [hnone] at hc
    cases hc
  · intro hmem
    rcases (mem_bucketPins_i _ _ _ _).mp hmem with ⟨r, hr, hnone, _, hpx⟩
    rw [hud r hr hpx] at hnone
    rw [hnone] at hc
    cases hc
  · intro hmem
    rcases (mem_bucketPins_o _ _ _ _).mp hmem with ⟨r, hr, hnone, _, hpx⟩
    rw [hud r hr hpx] at hnone
    rw [hnone] at hc
    cases hc

/-- Group data for the claim C7 witness: one custom label `EN` recognising
the function name `FOO_EN`. -/
def c7g : GroupData :=
  { repat := [litPat ("FOO_EN"), litPat ("FOO_D")]
    sub_name := ["FOO", "FOO"]
    clk_repat := []
    cus_pin := [("EN", litPat ("FOO_EN"))]
    sub_group := [] }

/-- The custom-matched pin of the claim C7 witness. -/
def c7q : Pin := { func := "FOO_EN", dir := "I", pad := some "PA1", ref := some "R1" }

/-- Sub-group for the claim C7 witness: the custom pin and one ordinary data
pin with a different pad. -/
def c7sg : SubGroup :=
  { pin_list := [c7q, { func := "FOO_D", dir := "O", pad := some "PA2", ref := some "R2" }]
    data_pin := [c7q, { func := "FOO_D", dir := "O", pad := some "PA2", ref := some "R2" }]
    clk_pin := [] }

/-- Claim C7 witness: the theorem applied at the concrete sub-group; the
custom pin's pad is bucketed under `EN` and absent from all four generic
port lists. -/
theorem c7_witness :
    c7q.pad ∈ getPads (bucketPins c7g.cus_pin c7sg.data_pin
        (bucketPins c7g.cus_pin c7sg.clk_pin []).1).1 "EN"
      ∧ c7q.pad ∉ (bucketPins c7g.cus_pin c7sg.clk_pin []).2.1
      ∧ c7q.pad ∉ (bucketPins c7g.cus_pin c7sg.clk_pin []).2.2
      ∧ c7q.pad ∉ (bucketPins c7g.cus_pin c7sg.data_pin
          (bucketPins c7g.cus_pin c7sg.clk_pin []).1).2.1
      ∧ c7q.pad ∉ (bucketPins c7g.cus_pin c7sg.data_pin
          (bucketPins c7g.cus_pin c7sg.clk_pin []).1).2.2 :=
  c7_theorem c7g c7sg c7q "EN" (Or.inr (by decide)) (by decide) (by decide) (by decide)

/-! Claim C8: directional port lists and statement emission. -/

/-- Sequencing a list of present optional values succeeds. -/
theorem seqOpt_isSome (l : List (Option String)) (h : ∀ x ∈ l, x.isSome = true) :
    ∃ ss, seqOpt l = some ss := by
  induction l with
  | nil => exact ⟨[], rfl⟩
  | cons x rest ih =>
    cases hx : x with
    | none =>
      have := h x (List.mem_cons_self x rest)
      rw [hx] at this
      simp at this
    | some a =>
      rcases ih (fun y hy => h y (List.mem_cons_of_mem x hy)) with ⟨ss, hss⟩
      exact ⟨a :: ss, by simp [seqOpt, hss]⟩

/-- Joining a list of present optional values succeeds. -/
theorem pyJoin_ok (l : List (Option String)) (h : ∀ x ∈ l, x.isSome = true) :
    ∃ s, pyJoin l = .ok s := by
  rcases seqOpt_isSome l h with ⟨ss, hss⟩
  exact ⟨String.intercalate "," ss, by simp [pyJoin, hss]⟩

/-- One directional port list yields no statement when empty and exactly one
statement when non-empty (given all pads present). -/
theorem stmtIfNonEmpty_ok (ident : String) (w : Nat) (l : List (Option String))
    (h : ∀ x ∈ l, x.isSome = true) :
    ∃ out, stmtIfNonEmpty ident w l = .ok out
      ∧ out.length = (if l.isEmpty then 0 else 1) := by
  by_cases he : l.isEmpty
  · refine ⟨[], ?_, ?_⟩ <;> simp [stmtIfNonEmpty, he]
  · rcases pyJoin_ok l h with ⟨s, hs⟩
    refine ⟨[fmtSet (ljust ident w) s], ?_, ?_⟩
    · simp [stmtIfNonEmpty, he, hs]
    · simp [he]

/-- The four-statement block of one sub-group: each of the four lists
contributes exactly one statement when non-empty and none when empty. -/
theorem dirStmts_ok (sgname : String) (ci co di doL : List (Option String))
    (h1 : ∀ x ∈ ci, x.isSome = true) (h2 : ∀ x ∈ co, x.isSome = true)
    (h3 : ∀ x ∈ di, x.isSome = true) (h4 : ∀ x ∈ doL, x.isSome = true) :
    ∃ out, dirStmts sgname ci co di doL = .ok out
      ∧ out.length = (if ci.isEmpty then 0 else 1) + (if co.isEmpty then 0 else 1)
          + (if di.isEmpty then 0 else 1) + (if doL.isEmpty then 0 else 1) := by
  rcases stmtIfNonEmpty_ok (sgname ++ "_PADCLK_I") (sgname.length + 9) ci h1 with ⟨a, ha, hla⟩
  rcases stmtIfNonEmpty_ok (sgname ++ "_PADCLK_O") (sgname.length + 9) co h2 with ⟨b, hb, hlb⟩
  rcases stmtIfNonEmpty_ok (sgname ++ "_PORT_I") (sgname.length + 9) di h3 with ⟨c, hcc, hlc⟩
  rcases stmtIfNonEmpty_ok (sgname ++ "_PORT_O") (sgname.length + 9) doL h4 with ⟨d, hd, hld⟩
  refine ⟨a ++ b ++ c ++ d, ?_, ?_⟩
  · simp [dirStmts, ha, hb, hcc, hd]
  · simp only [List.length_append, hla, hlb, hlc, hld]

/-- Claim C8: in one bucketing pass a non-custom pin with direction `I`
contributes its pad to the input list and (pads being unique) not to the
output list, `O` symmetrically, and `IO` to both; and the four directional
lists emit exactly one statement each when non-empty and none when empty. -/
theorem c8_theorem (cus : List (String × RePat)) (pins : List Pin)
    (acc : List (String × List (Option String))) (q : Pin) (sgname : String)
    (ci co di doL : List (Option String))
    (hq : q ∈ pins) (hnc : customMatch cus q.func = none)
    (huniq : ∀ r ∈ pins, r.pad = q.pad → r = q)
    (h1 : ∀ x ∈ ci, x.isSome = true) (h2 : ∀ x ∈ co, x.isSome = true)
    (h3 : ∀ x ∈ di, x.isSome = true) (h4 : ∀ x ∈ doL, x.isSome = true) :
    ((q.dir = "I" → q.pad ∈ (bucketPins cus pins acc).2.1
        ∧ q.pad ∉ (bucketPins cus pins acc).2.2)
      ∧ (q.dir = "O" → q.pad ∉ (bucketPins cus pins acc).2.1
        ∧ q.pad ∈ (bucketPins cus pins acc).2.2)
      ∧ (q.dir = "IO" → q.pad ∈ (bucketPins cus pins acc).2.1
        ∧ q.pad ∈ (bucketPins cus pins acc).2.2))
    ∧ (∃ out, dirStmts sgname ci co di doL = .ok out
        ∧ out.length = (if ci.isEmpty then 0 else 1) + (if co.isEmpty then 0 else 1)
            + (if di.isEmpty then 0 else 1) + (if doL.isEmpty then 0 else 1)) := by
  refine ⟨⟨?_, ?_, ?_⟩, dirStmts_ok sgname ci co di doL h1 h2 h3 h4⟩
  · intro hdir
    constructor
    · exact (mem_bucketPins_i cus pins acc q.pad).mpr
        ⟨q, hq, hnc, by rw [hdir]; decide, rfl⟩
    · intro hmem
      rcases (mem_bucketPins_o cus pins acc q.pad).mp hmem with ⟨r, hr, _, rdir, rpad⟩
      rw [huniq r hr rpad, hdir] at rdir
      simp [DIR_O_TAG] at rdir
  · intro hdir
    constructor
    · intro hmem
      rcases (mem_bucketPins_i cus pins acc q.pad).mp hmem with ⟨r, hr, _, rdir, rpad⟩
      rw [huniq r hr rpad, hdir] at rdir
      simp [DIR_I_TAG] at rdir
    · exact (mem_bucketPins_o cus pins acc q.pad).mpr
        ⟨q, hq, hnc, by rw [hdir]; decide, rfl⟩
  · intro hdir
    constructor
    · exact (mem_bucketPins_i cus pins acc q.pad).mpr
        ⟨q, hq, hnc, by rw [hdir]; decide, rfl⟩
    · exact (mem_bucketPins_o cus pins acc q.pad).mpr
        ⟨q, hq, hnc, by rw [hdir]; decide, rfl⟩

/-- The input-capable data pin used by the claim C8 witness. -/
def c8q : Pin := { func := "D0", dir := "I", pad := some "P1", ref := some "R1" }

/-- The data-pin list of the claim C8 witness: two input-capable data pins
and no output-capable pin (the scenario of the specification). -/
def c8pins : List Pin :=
  [c8q, { func := "D1", dir := "I", pad := some "P2", ref := some "R2" }]

/-- Claim C8 witness: the theorem applied at a sub-group with two
input-capable data pins and zero output-capable pins: the pad of the first
pin lands in the input list only, and the statement block holds exactly one
statement (the `_PORT_I` one: only the data-input list is non-empty). -/
theorem c8_witness :
    ((c8q.dir = "I" → c8q.pad ∈ (bucketPins [] c8pins []).2.1
        ∧ c8q.pad ∉ (bucketPins [] c8pins []).2.2)
      ∧ (c8q.dir = "O" → c8q.pad ∉ (bucketPins [] c8pins []).2.1
        ∧ c8q.pad ∈ (bucketPins [] c8pins []).2.2)
      ∧ (c8q.dir = "IO" → c8q.pad ∈ (bucketPins [] c8pins []).2.1
        ∧ c8q.pad ∈ (bucketPins [] c8pins []).2.2))
    ∧ (∃ out, dirStmts "SG" [] [] [some "P1", some "P2"] [] = .ok out
        ∧ out.length = (if ([] : List (Option String)).isEmpty then 0 else 1)
            + (if ([] : List (Option String)).isEmpty then 0 else 1)
            + (if ([some "P1", some "P2"] : List (Option String)).isEmpty then 0 else 1)
            + (if ([] : List (Option String)).isEmpty then 0 else 1)) :=
  c8_theorem [] c8pins [] c8q "SG" [] [] [some "P1", some "P2"] []
    (by decide) (by decide) (by decide)
    (by decide) (by decide) (by decide) (by decide)

/-! Claim C9: alignment of the custom-pin statements. -/

/-- The custom bucket dictionary used for claim C9. -/
def c9dict : List (String × List (Option String)) :=
  [("EN", [some "PA1"]), ("RESETN", [some "PA2"])]

/-- Claim C9: at the sub-group `UART0` with custom labels `EN` and `RESETN`,
the two custom statements are rendered with identifier fields of widths 8
and 12: the padding target is `maxKeyLen + 1 = 7`, computed from the label
lengths alone, so `ljust` never pads the full identifiers and they are *not*
column-aligned to a common width. -/
theorem c9_theorem :
    customStmts "UART0" c9dict
        = .ok ["    set UART0_EN [get_ports \x7bPA1\x7d]",
               "    set UART0_RESETN [get_ports \x7bPA2\x7d]"]
      ∧ maxKeyLen c9dict + 1 = 7
      ∧ (ljust ("UART0" ++ "_" ++ "EN") (maxKeyLen c9dict + 1)).length = 8
      ∧ (ljust ("UART0" ++ "_" ++ "RESETN") (maxKeyLen c9dict + 1)).length = 12 := by
  refine ⟨rfl, ?_, ?_, ?_⟩ <;> decide

/-! Claim C10: an absent function cell is stringified to `"None"` and
classified like any other function name. -/

/-- Claim C10: when the function cell of a scanned pair is absent, the pair
is not skipped: the value is stringified to the literal text `None`, which
is tested against the ignore rules, and — the direction being valid and the
name not ignored — a pin with function name `None` is constructed and
classified against all group patterns. -/
theorem c10_theorem (padc refc : Nat) (row : RowData) (st : ParseResult)
    (pr : Nat × Nat) (d : String)
    (hfunc : (cellAt row pr.2).value = none)
    (hstrike : (cellAt row pr.1).strike = false)
    (hig : (checkIgnore st.ignore "None").2 = false)
    (hdir : (cellAt row pr.1).value = some d)
    (hvalid : strUpper d ∈ DIR_TAG) :
    processPair (some padc) (some refc) row st pr =
      .ok (scanPinUpdate { st with ignore := (checkIgnore st.ignore "None").1 }
        { func := "None", dir := strUpper d
          pad := (cellAt row padc).value, ref := (cellAt row refc).value }) := by
  simp [processPair, hfunc, pyStr, hstrike, hig, hdir, hvalid]

/-- The data row of the claim C10 witness: a lower-case direction `io`, an
*absent* function cell, and pad/reference cells. -/
def c10row : RowData :=
  { hidden := false
    cells := [mkCell (some "io"), mkCell none, mkCell (some "P1"), mkCell (some "R1")] }

/-- The scan state of the claim C10 witness: one group whose single pattern
does not match the literal text `None`, and one ignore rule that does not
match it either. -/
def c10st : ParseResult :=
  { groups := [("g", { repat := [litPat "UART0_TX"], sub_name := ["UART0"]
                       clk_repat := [], cus_pin := [], sub_group := [] })]
    unknown := []
    ignore := [("nc", { active := false, repat := litPat "NC" })]
    out := [] }

/-- Claim C10 witness: the theorem applied at the concrete row and state;
the constructed pin has function name `None` and lands in the unknown list
of the classified state. -/
theorem c10_witness :
    processPair (some 3) (some 4) c10row c10st (1, 2) =
      .ok (scanPinUpdate { c10st with ignore := (checkIgnore c10st.ignore "None").1 }
        { func := "None", dir := strUpper "io"
          pad := (cellAt c10row 3).value, ref := (cellAt c10row 4).value }) :=
  c10_theorem 3 4 c10row c10st (1, 2) "io"
    (by decide) (by decide) (by decide) (by decide) (by decide)

end Pinmux
